import Mathlib

/-!
Verification of the CH-Mock-Export aggregation pipeline (`src/cli/main.py`).

The pipeline fetches an export descriptor (a JSON body with key path
`data.download_ids`), then for each download streams a CSV-like text body:
the first line is a discarded header, every following line is stripped,
skipped when empty, split on commas, skipped when the field count is not 4,
and otherwise counted into two insertion-ordered mappings
(`patient_counts[patient_id][event_type]` and `total_counts[event_type]`).
Finally the two mappings are serialized as indented JSON, printed to stdout
and optionally written to a file.

Python strings are modelled as `List Char`; Python `dict`s (which preserve
insertion order and have unique keys) are modelled as association lists where
an update rewrites the first matching entry in place and a fresh key is
appended at the end — exactly the observable order semantics of `dict`.
-/

set_option autoImplicit false

namespace CHMockExport

/-- A Python string, modelled as its list of characters. -/
abbrev Str := List Char

/-- One parsed data row: `patient_id, event_time, event_type, value`
(`main.py` lines 148-152). `event_time` and `value` are opaque. -/
structure EventRecord where
  patient_id : Str
  event_time : Str
  event_type : Str
  value : Str
deriving DecidableEq

/-- The two counter structures of `process_data` (`main.py` lines 127-128):
`patient_counts` maps a patient id to an event-type counter,
`total_counts` maps an event type to its global count. -/
structure AggState where
  patient_counts : List (Str × List (Str × Nat))
  total_counts : List (Str × Nat)
deriving DecidableEq

/-- The freshly initialized counters (`defaultdict`s start empty). -/
def emptyState : AggState := ⟨[], []⟩

/-- First-match lookup in an association list, as Python `d[k]` resolves keys. -/
def lookupA {β : Type} (m : List (Str × β)) (k : Str) : Option β :=
  match m with
  | [] => none
  | (k', v) :: rest => if k' = k then some v else lookupA rest k

/-- `m[k] += 1` on a `defaultdict(int)`: the first entry with key `k` is
incremented in place; a missing key is appended at the end with count 1
(Python dicts keep insertion order). -/
def incrCount (m : List (Str × Nat)) (k : Str) : List (Str × Nat) :=
  match m with
  | [] => [(k, 1)]
  | (k', v) :: rest =>
    if k' = k then (k', v + 1) :: rest else (k', v) :: incrCount rest k

/-- `m[p][t] += 1` on a `defaultdict(lambda: defaultdict(int))`: the inner
counter of the first entry with key `p` is updated in place; a missing
patient is appended at the end with inner counter `{t: 1}`. -/
def incrNested (m : List (Str × List (Str × Nat))) (p t : Str) :
    List (Str × List (Str × Nat)) :=
  match m with
  | [] => [(p, [(t, 1)])]
  | (k, inner) :: rest =>
    if k = p then (k, incrCount inner t) :: rest
    else (k, inner) :: incrNested rest p t

/-- Applying one valid record (`main.py` lines 153-154):
`patient_counts[patient_id][event_type] += 1` and
`total_counts[event_type] += 1`. -/
def applyRecord (s : AggState) (r : EventRecord) : AggState :=
  ⟨incrNested s.patient_counts r.patient_id r.event_type,
   incrCount s.total_counts r.event_type⟩

/-- The characters removed by Python `str.strip()` (ASCII whitespace). -/
def isPySpace (c : Char) : Bool :=
  c = ' ' || c = '\t' || c = '\n' || c = '\r' || c = '\x0b' || c = '\x0c'

/-- Python `line.strip()`: drop whitespace from both ends (`main.py` line 141). -/
def pyStrip (l : Str) : Str :=
  ((l.dropWhile isPySpace).reverse.dropWhile isPySpace).reverse

/-- Python `s.split(",")`: split on every comma, keeping empty pieces;
`"".split(",") == [""]` (`main.py` line 144). -/
def splitComma : Str → List Str
  | [] => [[]]
  | c :: rest =>
    if c = ',' then [] :: splitComma rest
    else
      match splitComma rest with
      | [] => [[c]]
      | f :: fs => (c :: f) :: fs

/-- The row parser of the inner loop (`main.py` lines 141-152): strip the
line, skip it when empty, split on commas, skip it unless exactly 4 fields
remain, otherwise build the record from the 4 fields verbatim. -/
def parseRow (line : Str) : Option EventRecord :=
  if pyStrip line = [] then none
  else
    match splitComma (pyStrip line) with
    | [a, b, c, d] => some ⟨a, b, c, d⟩
    | _ => none

/-- One iteration of the line loop (`main.py` lines 140-155): a line that
parses updates the counters, any other line leaves them untouched. -/
def processLine (s : AggState) (line : Str) : AggState :=
  match parseRow line with
  | none => s
  | some r => applyRecord s r

/-- Processing one download body (`main.py` lines 136-156): the first line
is the header, read and discarded by `response.readline()`; the remaining
lines run through the line loop. -/
def processDownload (s : AggState) (lines : List Str) : AggState :=
  (lines.drop 1).foldl processLine s

/-- Processing every download of an export, strictly in list order,
starting from the empty counters (`main.py` lines 127-156). -/
def processDownloads (downloads : List (List Str)) : AggState :=
  downloads.foldl processDownload emptyState

/-- Folding a sequence of already-parsed records through the aggregator. -/
def processRecords (recs : List EventRecord) : AggState :=
  recs.foldl applyRecord emptyState

/-! ## Export resolution (`main.py` lines 117-123) and error propagation -/

/-- A JSON value, as produced by `json.loads`. -/
inductive Json where
  | null
  | bool (b : Bool)
  | num (n : Int)
  | str (s : Str)
  | arr (xs : List Json)
  | obj (kvs : List (Str × Json))

/-- Outcome of the HTTP GET for the export descriptor (`urllib.request.urlopen`
plus `json.loads` of the body): `failure` is a request that cannot complete
(`urllib.error.URLError`); `success none` is a completed request whose body is
not valid JSON (`json.JSONDecodeError`); `success (some j)` is a body that
parses to `j`. -/
inductive FetchOutcome where
  | failure
  | success (body : Option Json)

/-- The error taxonomy of the export-resolution stage: `networkError` stands
for the propagated `urllib.error.URLError`; `malformedResponse` stands for a
propagated `json.JSONDecodeError` or `KeyError` (body not valid JSON, or the
key path `data.download_ids` missing). -/
inductive ResolveError where
  | networkError
  | malformedResponse
deriving DecidableEq

/-- Python `j[k]` on a decoded JSON value: a key lookup that raises
(`KeyError`/`TypeError`) when the value is not an object with that key,
modelled as `none`. -/
def getKey (j : Json) (k : Str) : Option Json :=
  match j with
  | .obj kvs => lookupA kvs k
  | _ => none

/-- The export resolver (`main.py` lines 119-123): fetch
`{base_url}/export/{export_id}`, decode the body as JSON, take `["data"]`
then `["download_ids"]`. Every failure propagates uncaught out of
`process_data`. -/
def resolveExport (fetch : FetchOutcome) : Except ResolveError Json :=
  match fetch with
  | .failure => .error .networkError
  | .success none => .error .malformedResponse
  | .success (some j) =>
    match getKey j "data".data with
    | none => .error .malformedResponse
    | some d =>
      match getKey d "download_ids".data with
      | none => .error .malformedResponse
      | some ids => .ok ids

/-- The download identifiers extracted from the resolved `download_ids`
value; per the API contract they form a JSON array of strings. -/
def downloadIdsOf : Json → List Str
  | .arr xs => xs.filterMap fun j => match j with | .str s => some s | _ => none
  | _ => []

/-- The whole of `process_data` up to aggregation, with the network modelled
as inputs: the resolver runs first and any of its errors aborts the run
unmodified (`process_data` catches nothing; only `main` catches, at the very
top); on success each download body is fetched and aggregated in order. -/
def processDataModel (fetch : FetchOutcome) (download : Str → List Str) :
    Except ResolveError AggState :=
  match resolveExport fetch with
  | .error e => .error e
  | .ok ids => .ok (processDownloads ((downloadIdsOf ids).map download))

/-! ## JSON emission (`main.py` lines 164-177)

`json.dumps(output, indent=2)` for the exact shape
`{"patients": {str: {str: int}}, "totals": {str: int}}`, including Python's
default `ensure_ascii=True` string escaping; dict entries are rendered in
insertion order (`sort_keys` defaults to `False`). -/

/-- The lower-case hex digit of `n % 16`, as Python's `\uXXXX` escapes use. -/
def hexDigit (n : Nat) : Char :=
  if n % 16 < 10 then Char.ofNat ('0'.toNat + n % 16)
  else Char.ofNat ('a'.toNat + (n % 16 - 10))

/-- A six-character `\uXXXX` escape for a code unit `n < 0x10000`. -/
def uEscape (n : Nat) : Str :=
  ['\\', 'u', hexDigit (n / 4096), hexDigit (n / 256), hexDigit (n / 16),
   hexDigit n]

/-- `json.dumps` escaping of one character (`ensure_ascii=True`): the two
JSON metacharacters and the five short control escapes get a backslash form,
other control characters and every non-ASCII character become `\uXXXX`
(a surrogate pair above the BMP), printable ASCII passes through. -/
def escapeChar (c : Char) : Str :=
  if c = '"' then ['\\', '"']
  else if c = '\\' then ['\\', '\\']
  else if c = '\n' then ['\\', 'n']
  else if c = '\r' then ['\\', 'r']
  else if c = '\t' then ['\\', 't']
  else if c = '\x08' then ['\\', 'b']
  else if c = '\x0c' then ['\\', 'f']
  else if c.toNat < 0x20 then uEscape c.toNat
  else if c.toNat < 0x7f then [c]
  else if c.toNat < 0x10000 then uEscape c.toNat
  else uEscape (0xd800 + (c.toNat - 0x10000) / 1024) ++
       uEscape (0xdc00 + (c.toNat - 0x10000) % 1024)

/-- A JSON string literal: the escaped characters between double quotes. -/
def quoteStr (s : Str) : Str :=
  '"' :: (s.map escapeChar).flatten ++ ['"']

/-- Interleave a separator between list elements, as `json.dumps` places
`",\n"` between the entries of an object. -/
def joinSep (sep : Str) : List Str → Str
  | [] => []
  | [x] => x
  | x :: xs => x ++ sep ++ joinSep sep xs

/-- `2 * n` spaces: the `indent=2` prefix at nesting depth `n`. -/
def indentAt (n : Nat) : Str :=
  List.replicate (2 * n) ' '

/-- `json.dumps(m, indent=2)` for a flat `{str: int}` dict at nesting depth
`level`: `{}` when empty, otherwise each entry on its own line, separated by
`",\n"`, closed by a brace at the enclosing depth. -/
def renderIntMap (level : Nat) (m : List (Str × Nat)) : Str :=
  match m with
  | [] => ['{', '}']
  | _ =>
    ['{', '\n'] ++
    joinSep [',', '\n']
      (m.map fun kv =>
        indentAt (level + 1) ++ quoteStr kv.1 ++ [':', ' '] ++
        (Nat.repr kv.2).data) ++
    ['\n'] ++ indentAt level ++ ['}']

/-- `json.dumps` for the nested `{str: {str: int}}` dict at depth `level`. -/
def renderPatientMap (level : Nat) (m : List (Str × List (Str × Nat))) : Str :=
  match m with
  | [] => ['{', '}']
  | _ =>
    ['{', '\n'] ++
    joinSep [',', '\n']
      (m.map fun kv =>
        indentAt (level + 1) ++ quoteStr kv.1 ++ [':', ' '] ++
        renderIntMap (level + 1) kv.2) ++
    ['\n'] ++ indentAt level ++ ['}']

/-- `json.dumps(output, indent=2)` for
`output = {"patients": dict(patient_counts), "totals": dict(total_counts)}`
(`main.py` lines 164-173): the serialization is a function of the
aggregation state alone. -/
def renderOutput (s : AggState) : Str :=
  ['{', '\n'] ++ indentAt 1 ++ quoteStr "patients".data ++ [':', ' '] ++
  renderPatientMap 1 s.patient_counts ++ [',', '\n'] ++
  indentAt 1 ++ quoteStr "totals".data ++ [':', ' '] ++
  renderIntMap 1 s.total_counts ++ ['\n', '}']

/-- The observable sinks of emission: everything printed to standard output
so far, and the contents of the file system as a path-to-content map. -/
structure OutWorld where
  stdout : Str
  files : List (Str × Str)
deriving DecidableEq

/-- `open(path, "w")` followed by a full write: the file's previous content,
if any, is discarded and replaced by `content` (truncate-then-write). -/
def setFile (fs : List (Str × Str)) (p content : Str) : List (Str × Str) :=
  match fs with
  | [] => [(p, content)]
  | (q, old) :: rest =>
    if q = p then (q, content) :: rest else (q, old) :: setFile rest p content

/-- The emitter (`main.py` lines 173-177): `print` writes the serialized
text plus a newline to stdout unconditionally; then `if output_file:` — the
Python truthiness test, false for `None` and for the empty string — guards
`open(output_file, "w")` and `json.dump`, which writes the identical
serialized text (no trailing newline) over whatever the file held. -/
def emit (s : AggState) (path : Option Str) (w : OutWorld) : OutWorld :=
  let text := renderOutput s
  let w1 : OutWorld := ⟨w.stdout ++ text ++ ['\n'], w.files⟩
  match path with
  | none => w1
  | some p => if p = [] then w1 else ⟨w1.stdout, setFile w1.files p text⟩

/-! ## Specification-side helper functions -/

/-- The keys of an association list, in storage order — for a Python dict,
its iteration order. -/
def keysOf {β : Type} (m : List (Str × β)) : List Str :=
  m.map Prod.fst

/-- Appending a key to a key list unless it is already present: the effect
one dict update has on the dict's iteration order. -/
def addKey (l : List Str) (k : Str) : List Str :=
  if k ∈ l then l else l ++ [k]

/-- The elements of a list not in `seen`, in first-occurrence order, each
kept once. -/
def firstSeenFrom (seen : List Str) : List Str → List Str
  | [] => []
  | x :: xs =>
    if x ∈ seen then firstSeenFrom seen xs
    else x :: firstSeenFrom (seen ++ [x]) xs

/-- The elements of a list in first-occurrence order, each kept once. -/
def firstSeen (l : List Str) : List Str :=
  firstSeenFrom [] l

/-- `total_counts[t]`, with the defaultdict's implicit 0 for a missing key. -/
def totalOf (s : AggState) (t : Str) : Nat :=
  (lookupA s.total_counts t).getD 0

/-- The sum over all patients `p` of `patient_counts[p][t]`. -/
def sumPatients (s : AggState) (t : Str) : Nat :=
  (s.patient_counts.map fun e => (lookupA e.2 t).getD 0).sum

/-- The number of commas in a string. -/
def countComma : Str → Nat
  | [] => 0
  | c :: rest => (if c = ',' then 1 else 0) + countComma rest

/-! ## Lemmas about splitting and stripping -/

theorem splitComma_ne_nil (l : Str) : splitComma l ≠ [] := by
  induction l with
  | nil => simp [splitComma]
  | cons c rest ih =>
    simp only [splitComma]
    split
    · simp
    · rcases h : splitComma rest with _ | ⟨f, fs⟩
      · exact absurd h ih
      · simp [h]

theorem splitComma_length (l : Str) :
    (splitComma l).length = countComma l + 1 := by
  induction l with
  | nil => simp [splitComma, countComma]
  | cons c rest ih =>
    simp only [splitComma, countComma]
    by_cases hc : c = ','
    · simp [hc, ih]; omega
    · rcases h : splitComma rest with _ | ⟨f, fs⟩
      · exact absurd h (splitComma_ne_nil rest)
      · rw [h] at ih
        simp [hc, ih.symm]

theorem countComma_append (a b : Str) :
    countComma (a ++ b) = countComma a + countComma b := by
  induction a with
  | nil => simp [countComma]
  | cons c rest ih => simp [countComma, ih]; omega

theorem countComma_reverse (l : Str) : countComma l.reverse = countComma l := by
  induction l with
  | nil => rfl
  | cons c rest ih =>
    simp [List.reverse_cons, countComma_append, countComma, ih]; omega

theorem countComma_dropWhile (l : Str) :
    countComma (l.dropWhile isPySpace) = countComma l := by
  induction l with
  | nil => rfl
  | cons c rest ih =>
    by_cases hc : isPySpace c
    · have hcc : c ≠ ',' := by
        intro e; subst e; simp [isPySpace] at hc
      simp [List.dropWhile, hc, ih, countComma, hcc]
    · simp [List.dropWhile, hc]

theorem countComma_pyStrip (l : Str) : countComma (pyStrip l) = countComma l := by
  unfold pyStrip
  rw [countComma_reverse, countComma_dropWhile, countComma_reverse,
    countComma_dropWhile]

theorem parseRow_eq_none_of_length (line : Str)
    (h : (splitComma line).length ≠ 4) : parseRow line = none := by
  have hlen : (splitComma (pyStrip line)).length ≠ 4 := by
    rw [splitComma_length, countComma_pyStrip, ← splitComma_length]
    exact h
  unfold parseRow
  by_cases he : pyStrip line = []
  · simp [he]
  · rw [if_neg he]
    rcases hs : splitComma (pyStrip line) with
        _ | ⟨a, _ | ⟨b, _ | ⟨c, _ | ⟨d, _ | ⟨e, rest⟩⟩⟩⟩⟩ <;>
      first
        | rfl
        | (exact absurd (by rw [hs]; rfl) hlen)

theorem parseRow_some_of_strip_length (line : Str)
    (h4 : (splitComma (pyStrip line)).length = 4) :
    ∃ r, parseRow line = some r ∧
      splitComma (pyStrip line) =
        [r.patient_id, r.event_time, r.event_type, r.value] := by
  have hne : pyStrip line ≠ [] := by
    intro e; rw [e] at h4; simp [splitComma] at h4
  unfold parseRow
  rw [if_neg hne]
  rcases hs : splitComma (pyStrip line) with
      _ | ⟨a, _ | ⟨b, _ | ⟨c, _ | ⟨d, _ | ⟨e, rest⟩⟩⟩⟩⟩
  · rw [hs] at h4; simp only [List.length_nil] at h4; omega
  · rw [hs] at h4; simp only [List.length_cons, List.length_nil] at h4; omega
  · rw [hs] at h4; simp only [List.length_cons, List.length_nil] at h4; omega
  · rw [hs] at h4; simp only [List.length_cons, List.length_nil] at h4; omega
  · exact ⟨⟨a, b, c, d⟩, rfl, rfl⟩
  · rw [hs] at h4; simp only [List.length_cons] at h4; omega

/-! ## Lemmas about the counters -/

theorem lookupA_incrCount_getD (m : List (Str × Nat)) (k t : Str) :
    (lookupA (incrCount m k) t).getD 0 =
      (lookupA m t).getD 0 + (if k = t then 1 else 0) := by
  induction m with
  | nil =>
    by_cases h : k = t <;> simp [incrCount, lookupA, h]
  | cons kv rest ih =>
    obtain ⟨k', v⟩ := kv
    by_cases hk : k' = k
    · subst hk
      by_cases ht : k' = t <;> simp [incrCount, lookupA, ht]
    · by_cases ht : k' = t
      · subst ht
        have h2 : ¬ k = k' := fun e => hk e.symm
        simp [incrCount, lookupA, hk, h2]
      · simp [incrCount, lookupA, hk, ht, ih]

theorem sum_incrNested (m : List (Str × List (Str × Nat))) (p t t' : Str) :
    ((incrNested m p t).map fun e => (lookupA e.2 t').getD 0).sum =
      (m.map fun e => (lookupA e.2 t').getD 0).sum +
        (if t = t' then 1 else 0) := by
  induction m with
  | nil =>
    by_cases h : t = t' <;> simp [incrNested, lookupA, h]
  | cons kv rest ih =>
    obtain ⟨k, inner⟩ := kv
    by_cases hk : k = p
    · simp [incrNested, hk, lookupA_incrCount_getD]
      omega
    · simp [incrNested, hk, ih]
      omega

theorem totals_invariant_applyRecord (s : AggState) (r : EventRecord)
    (h : ∀ t, totalOf s t = sumPatients s t) :
    ∀ t, totalOf (applyRecord s r) t = sumPatients (applyRecord s r) t := by
  intro t
  unfold totalOf sumPatients applyRecord
  simp only [lookupA_incrCount_getD, sum_incrNested]
  have := h t
  unfold totalOf sumPatients at this
  omega

theorem totals_invariant_foldl (recs : List EventRecord) :
    ∀ s : AggState, (∀ t, totalOf s t = sumPatients s t) →
      ∀ t, totalOf (recs.foldl applyRecord s) t =
        sumPatients (recs.foldl applyRecord s) t := by
  induction recs with
  | nil => intro s h t; exact h t
  | cons r rest ih =>
    intro s h t
    exact ih (applyRecord s r) (totals_invariant_applyRecord s r h) t

/-! ## Lemmas about non-empty inner counters -/

theorem incrCount_ne_nil (m : List (Str × Nat)) (k : Str) :
    incrCount m k ≠ [] := by
  cases m with
  | nil => simp [incrCount]
  | cons kv rest =>
    obtain ⟨k', v⟩ := kv
    by_cases h : k' = k <;> simp [incrCount, h]

theorem inners_nonempty_incrNested (m : List (Str × List (Str × Nat)))
    (p t : Str) (h : ∀ e ∈ m, e.2 ≠ []) :
    ∀ e ∈ incrNested m p t, e.2 ≠ [] := by
  induction m with
  | nil =>
    intro e he
    simp [incrNested] at he
    subst he
    simp
  | cons kv rest ih =>
    obtain ⟨k, inner⟩ := kv
    intro e he
    by_cases hk : k = p
    · simp [incrNested, hk] at he
      rcases he with he | he
      · subst he; exact incrCount_ne_nil inner t
      · exact h e (List.mem_cons_of_mem _ he)
    · simp [incrNested, hk] at he
      rcases he with he | he
      · subst he
        exact h (k, inner) (List.mem_cons_self _ _)
      · exact ih (fun e' he' => h e' (List.mem_cons_of_mem _ he')) e he

theorem inners_nonempty_processLine (s : AggState) (line : Str)
    (h : ∀ e ∈ s.patient_counts, e.2 ≠ []) :
    ∀ e ∈ (processLine s line).patient_counts, e.2 ≠ [] := by
  unfold processLine
  cases parseRow line with
  | none => exact h
  | some r => exact inners_nonempty_incrNested _ _ _ h

theorem inners_nonempty_foldl_lines (lines : List Str) :
    ∀ s : AggState, (∀ e ∈ s.patient_counts, e.2 ≠ []) →
      ∀ e ∈ (lines.foldl processLine s).patient_counts, e.2 ≠ [] := by
  induction lines with
  | nil => intro s h; exact h
  | cons line rest ih =>
    intro s h
    exact ih (processLine s line) (inners_nonempty_processLine s line h)

theorem inners_nonempty_processDownloads (downloads : List (List Str)) :
    ∀ e ∈ (processDownloads downloads).patient_counts, e.2 ≠ [] := by
  unfold processDownloads
  have main : ∀ (dls : List (List Str)) (s : AggState),
      (∀ e ∈ s.patient_counts, e.2 ≠ []) →
      ∀ e ∈ (dls.foldl processDownload s).patient_counts, e.2 ≠ [] := by
    intro dls
    induction dls with
    | nil => intro s h; exact h
    | cons d rest ih =>
      intro s h
      exact ih (processDownload s d) (inners_nonempty_foldl_lines _ s h)
  exact main downloads emptyState (by simp [emptyState])

/-! ## Lemmas about insertion order -/

theorem keysOf_incrCount (m : List (Str × Nat)) (k : Str) :
    keysOf (incrCount m k) = addKey (keysOf m) k := by
  induction m with
  | nil => simp [incrCount, keysOf, addKey]
  | cons kv rest ih =>
    obtain ⟨k', v⟩ := kv
    by_cases hk : k' = k
    · subst hk
      simp [incrCount, keysOf, addKey]
    · have hk2 : ¬ k = k' := fun e => hk e.symm
      have e1 : incrCount ((k', v) :: rest) k = (k', v) :: incrCount rest k := by
        simp [incrCount, hk]
      have e2 : keysOf ((k', v) :: incrCount rest k) =
          k' :: keysOf (incrCount rest k) := rfl
      have e3 : keysOf ((k', v) :: rest) = k' :: keysOf rest := rfl
      rw [e1, e2, e3, ih]
      unfold addKey
      by_cases hm : k ∈ keysOf rest
      · simp [hm, hk2]
      · simp [hm, hk2]

theorem keysOf_incrNested (m : List (Str × List (Str × Nat))) (p t : Str) :
    keysOf (incrNested m p t) = addKey (keysOf m) p := by
  induction m with
  | nil => simp [incrNested, keysOf, addKey]
  | cons kv rest ih =>
    obtain ⟨k, inner⟩ := kv
    by_cases hk : k = p
    · subst hk
      simp [incrNested, keysOf, addKey]
    · have hk2 : ¬ p = k := fun e => hk e.symm
      have e1 : incrNested ((k, inner) :: rest) p t =
          (k, inner) :: incrNested rest p t := by
        simp [incrNested, hk]
      have e2 : keysOf ((k, inner) :: incrNested rest p t) =
          k :: keysOf (incrNested rest p t) := rfl
      have e3 : keysOf ((k, inner) :: rest) = k :: keysOf rest := rfl
      rw [e1, e2, e3, ih]
      unfold addKey
      by_cases hm : p ∈ keysOf rest
      · simp [hm, hk2]
      · simp [hm, hk2]

theorem lookupA_incrNested (m : List (Str × List (Str × Nat))) (p t q : Str) :
    lookupA (incrNested m p t) q =
      if p = q then some (incrCount ((lookupA m p).getD []) t)
      else lookupA m q := by
  induction m with
  | nil =>
    by_cases h : p = q <;> simp [incrNested, incrCount, lookupA, h]
  | cons kv rest ih =>
    obtain ⟨k, inner⟩ := kv
    by_cases hk : k = p
    · subst hk
      by_cases hq : k = q <;> simp [incrNested, lookupA, hq]
    · by_cases hq : k = q
      · subst hq
        have hpq : ¬ p = k := fun e => hk e.symm
        simp [incrNested, lookupA, hk, hpq]
      · simp [incrNested, lookupA, hk, hq, ih]

theorem foldl_addKey (ts : List Str) :
    ∀ acc : List Str, ts.foldl addKey acc = acc ++ firstSeenFrom acc ts := by
  induction ts with
  | nil => intro acc; simp [firstSeenFrom]
  | cons t ts ih =>
    intro acc
    by_cases h : t ∈ acc
    · simp [List.foldl_cons, addKey, h, firstSeenFrom, ih]
    · simp [List.foldl_cons, addKey, h, firstSeenFrom, ih]

theorem totals_keys_fold (recs : List EventRecord) :
    ∀ s : AggState,
      keysOf (recs.foldl applyRecord s).total_counts =
        (recs.map (fun r => r.event_type)).foldl addKey
          (keysOf s.total_counts) := by
  induction recs with
  | nil => intro s; rfl
  | cons r rest ih =>
    intro s
    simp only [List.foldl_cons, List.map_cons, ih, applyRecord,
      keysOf_incrCount]

theorem patients_keys_fold (recs : List EventRecord) :
    ∀ s : AggState,
      keysOf (recs.foldl applyRecord s).patient_counts =
        (recs.map (fun r => r.patient_id)).foldl addKey
          (keysOf s.patient_counts) := by
  induction recs with
  | nil => intro s; rfl
  | cons r rest ih =>
    intro s
    simp only [List.foldl_cons, List.map_cons, ih, applyRecord,
      keysOf_incrNested]

theorem inner_keys_fold (recs : List EventRecord) (p : Str) :
    ∀ s : AggState,
      keysOf ((lookupA (recs.foldl applyRecord s).patient_counts p).getD []) =
        ((recs.filter fun r => decide (r.patient_id = p)).map
            (fun r => r.event_type)).foldl addKey
          (keysOf ((lookupA s.patient_counts p).getD [])) := by
  induction recs with
  | nil => intro s; rfl
  | cons r rest ih =>
    intro s
    simp only [List.foldl_cons]
    rw [ih (applyRecord s r)]
    by_cases hp : r.patient_id = p
    · subst hp
      have h1 : (lookupA (applyRecord s r).patient_counts r.patient_id).getD
            [] =
          incrCount ((lookupA s.patient_counts r.patient_id).getD [])
            r.event_type := by
        simp [applyRecord, lookupA_incrNested]
      have h2 : List.filter (fun x => decide (x.patient_id = r.patient_id))
            (r :: rest) =
          r :: List.filter (fun x => decide (x.patient_id = r.patient_id))
            rest := by
        simp [List.filter_cons]
      rw [h1, keysOf_incrCount, h2, List.map_cons, List.foldl_cons]
    · have h1 : (lookupA (applyRecord s r).patient_counts p).getD [] =
          (lookupA s.patient_counts p).getD [] := by
        simp [applyRecord, lookupA_incrNested, hp]
      have h2 : List.filter (fun x => decide (x.patient_id = p)) (r :: rest) =
          List.filter (fun x => decide (x.patient_id = p)) rest := by
        simp [List.filter_cons, hp]
      rw [h1, h2]

theorem resolveExport_success_some (j : Json) :
    resolveExport (.success (some j)) =
      match (getKey j "data".data).bind
          (fun d => getKey d "download_ids".data) with
      | none => .error .malformedResponse
      | some ids => .ok ids := by
  have h : resolveExport (.success (some j)) =
      (match getKey j "data".data with
       | none => .error .malformedResponse
       | some d =>
         match getKey d "download_ids".data with
         | none => .error .malformedResponse
         | some ids => .ok ids) := rfl
  rw [h]
  rcases getKey j "data".data with _ | d
  · rfl
  · rfl

theorem lookupA_setFile (fs : List (Str × Str)) (p c : Str) :
    lookupA (setFile fs p c) p = some c := by
  induction fs with
  | nil => simp [setFile, lookupA]
  | cons kv rest ih =>
    obtain ⟨q, old⟩ := kv
    by_cases hq : q = p
    · simp [setFile, lookupA, hq]
    · simp [setFile, lookupA, hq, ih]

/-! ## The claims -/

/-- Claim C1: for every sequence of applied event records, after each record
is applied the aggregation state satisfies `total_counts[t] ==` the sum over
all patients `p` of `patient_counts[p][t]`, for every event type `t` —
quantifying over every record sequence covers the state after each record
of any stream. -/
theorem totals_eq_sum_over_patients (recs : List EventRecord) (t : Str) :
    totalOf (processRecords recs) t = sumPatients (processRecords recs) t :=
  totals_invariant_foldl recs emptyState
    (fun _ => by simp [totalOf, sumPatients, emptyState, lookupA]) t

/-- Claim C2: for every input line whose comma-split field count is not 4,
parsing yields no record and processing the line leaves the aggregation
state exactly as it was. (The code splits the stripped line, but stripping
only removes boundary whitespace and so never changes the comma count.) -/
theorem malformed_line_preserves_state (line : Str) (s : AggState)
    (h : (splitComma line).length ≠ 4) :
    parseRow line = none ∧ processLine s line = s := by
  have hp := parseRow_eq_none_of_length line h
  exact ⟨hp, by simp [processLine, hp]⟩

/-- Witness for claim C2 at the spec's own malformed row `"malformed,row"`
and an arbitrary concrete state. -/
theorem malformed_line_preserves_state_witness :
    parseRow "malformed,row".data = none ∧
      processLine emptyState "malformed,row".data = emptyState :=
  malformed_line_preserves_state "malformed,row".data emptyState (by decide)

/-- Claim C3, counterexample: the line `" a,b,c,d"` consists of exactly 4
comma-separated non-empty fields (the first is `" a"`), parsing yields a
record, but the whole-line `strip()` has removed the first field's leading
space, so that field is not preserved verbatim. -/
theorem parse_field_trim_counterexample :
    splitComma " a,b,c,d".data =
      [" a".data, "b".data, "c".data, "d".data] ∧
    (∀ f ∈ splitComma " a,b,c,d".data, f ≠ []) ∧
    parseRow " a,b,c,d".data =
      some ⟨"a".data, "b".data, "c".data, "d".data⟩ ∧
    "a".data ≠ " a".data := by decide

/-- Claim C3 (amended): for every line with no leading or trailing
whitespace that consists of exactly 4 comma-separated non-empty fields,
parsing yields a record and each of the 4 field contents is preserved
verbatim. -/
theorem parse_preserves_fields (l : Str) (h0 : pyStrip l = l)
    (h4 : (splitComma l).length = 4) (hne : ∀ f ∈ splitComma l, f ≠ []) :
    ∃ r, parseRow l = some r ∧
      splitComma l = [r.patient_id, r.event_time, r.event_type, r.value] := by
  have h := parseRow_some_of_strip_length l (by rw [h0]; exact h4)
  rwa [h0] at h

/-- Witness for amended claim C3 at the line `"a,b,c,d"`. -/
theorem parse_preserves_fields_witness :
    ∃ r, parseRow "a,b,c,d".data = some r ∧
      splitComma "a,b,c,d".data =
        [r.patient_id, r.event_time, r.event_type, r.value] :=
  parse_preserves_fields "a,b,c,d".data (by decide) (by decide) (by decide)

/-- Claim C4: after every operation of a pipeline run — i.e. for every list
of download bodies — every key present in `patient_counts` maps to a
non-empty inner mapping; no patient is ever recorded with zero events. -/
theorem patient_counts_inner_nonempty (downloads : List (List Str)) (p : Str)
    (m : List (Str × Nat))
    (h : (p, m) ∈ (processDownloads downloads).patient_counts) : m ≠ [] :=
  inners_nonempty_processDownloads downloads (p, m) h

/-- Witness for claim C4: one download whose single data row `"a,b,c,d"`
records patient `"a"` with the non-empty inner counter `{"c": 1}`. -/
theorem patient_counts_inner_nonempty_witness :
    [("c".data, (1 : Nat))] ≠ ([] : List (Str × Nat)) :=
  patient_counts_inner_nonempty [["hdr".data, "a,b,c,d".data]] "a".data
    [("c".data, (1 : Nat))] (by decide)

/-- Claim C5: export resolution fails with `networkError` when the request
cannot complete and with `malformedResponse` when the body is not valid
JSON or lacks the key path `data.download_ids`; either error is surfaced by
`process_data` to its caller unmodified, with no local recovery. -/
theorem resolver_error_classification (fetch : FetchOutcome)
    (download : Str → List Str) :
    (fetch = .failure →
      processDataModel fetch download = .error .networkError) ∧
    (∀ b, fetch = .success b →
      (b = none ∨ ∃ j, b = some j ∧
        (getKey j "data".data).bind
          (fun d => getKey d "download_ids".data) = none) →
      processDataModel fetch download = .error .malformedResponse) ∧
    (∀ e, resolveExport fetch = .error e →
      processDataModel fetch download = .error e) := by
  refine ⟨?_, ?_, ?_⟩
  · intro h
    subst h
    rfl
  · intro b hb hbad
    subst hb
    rcases hbad with h | ⟨j, hj, hpath⟩
    · subst h
      rfl
    · subst hj
      unfold processDataModel
      rw [resolveExport_success_some, hpath]
  · intro e he
    unfold processDataModel
    rw [he]

/-- Witness for claim C5: all three parts at concrete fetch outcomes — a
failed request, a body that is not valid JSON, and a valid JSON body
(`0`) lacking the key path. -/
theorem resolver_error_classification_witness :
    processDataModel .failure (fun _ => []) = .error .networkError ∧
    processDataModel (.success none) (fun _ => [])
      = .error .malformedResponse ∧
    processDataModel (.success (some (.num 0))) (fun _ => [])
      = .error .malformedResponse :=
  ⟨(resolver_error_classification .failure (fun _ => [])).1 rfl,
   (resolver_error_classification (.success none) (fun _ => [])).2.1
     none rfl (Or.inl rfl),
   (resolver_error_classification (.success (some (.num 0)))
     (fun _ => [])).2.2 .malformedResponse rfl⟩

/-- Claim C6, counterexample: with the output path `""` — provided, but
empty — the Python truthiness test `if output_file:` skips the file write
entirely, even though the serialized text is non-empty, so the identical
text is not written to that file. -/
theorem emit_empty_path_counterexample :
    lookupA (emit emptyState (some []) ⟨[], []⟩).files [] = none ∧
    renderOutput emptyState ≠ [] := by decide

/-- Claim C6 (amended): emission always writes the serialized JSON text
(followed by `print`'s newline) to standard output, and when a non-empty
output path is provided it additionally writes the identical serialized
text to that file, replacing any existing content (truncate-then-write,
no append). -/
theorem emit_writes_stdout_and_file (s : AggState) (path : Option Str)
    (w : OutWorld) :
    (emit s path w).stdout = w.stdout ++ renderOutput s ++ ['\n'] ∧
    (∀ p, path = some p → p ≠ [] →
      lookupA (emit s path w).files p = some (renderOutput s)) := by
  constructor
  · unfold emit
    rcases path with _ | p
    · rfl
    · by_cases hp : p = [] <;> simp [hp]
  · intro p hp hne
    subst hp
    unfold emit
    simp only [if_neg hne]
    exact lookupA_setFile w.files p (renderOutput s)

/-- Witness for amended claim C6: emitting the empty state to the path
`"out.json"` over a world where that file already holds `"OLD"` — stdout
receives the serialized text plus a newline, and the file's old content is
replaced by exactly the serialized text. -/
theorem emit_writes_stdout_and_file_witness :
    (emit emptyState (some "out.json".data)
        ⟨[], [("out.json".data, "OLD".data)]⟩).stdout =
      [] ++ renderOutput emptyState ++ ['\n'] ∧
    lookupA (emit emptyState (some "out.json".data)
        ⟨[], [("out.json".data, "OLD".data)]⟩).files "out.json".data =
      some (renderOutput emptyState) :=
  ⟨(emit_writes_stdout_and_file emptyState (some "out.json".data)
      ⟨[], [("out.json".data, "OLD".data)]⟩).1,
   (emit_writes_stdout_and_file emptyState (some "out.json".data)
      ⟨[], [("out.json".data, "OLD".data)]⟩).2 "out.json".data rfl
     (by decide)⟩

/-- Claim C7: emission is a deterministic function of the aggregation
state — emitting the same state twice appends the byte-identical chunk
`renderOutput s ++ newline` to stdout both times. -/
theorem emit_deterministic (s : AggState) (w : OutWorld) :
    (emit s none (emit s none w)).stdout =
      w.stdout ++ (renderOutput s ++ ['\n']) ++ (renderOutput s ++ ['\n'])
    := by
  unfold emit
  simp

/-- Claim C8: the keys of the emitted mappings follow first-seen insertion
order, with no sorting: `renderOutput` serializes each association list in
storage order, and after any record stream the key order of `patients`,
of `totals`, and of each patient's inner mapping is exactly the first-seen
order of the corresponding stream projection. -/
theorem json_key_insertion_order (recs : List EventRecord) :
    keysOf (processRecords recs).patient_counts =
      firstSeen (recs.map fun r => r.patient_id) ∧
    keysOf (processRecords recs).total_counts =
      firstSeen (recs.map fun r => r.event_type) ∧
    ∀ p, keysOf ((lookupA (processRecords recs).patient_counts p).getD []) =
      firstSeen ((recs.filter fun r => decide (r.patient_id = p)).map
        fun r => r.event_type) := by
  unfold processRecords firstSeen
  refine ⟨?_, ?_, ?_⟩
  · rw [patients_keys_fold recs emptyState, foldl_addKey]
    simp [emptyState, keysOf]
  · rw [totals_keys_fold recs emptyState, foldl_addKey]
    simp [emptyState, keysOf]
  · intro p
    rw [inner_keys_fold recs p emptyState, foldl_addKey]
    simp [emptyState, lookupA, keysOf]

/-- Claim C9: for an export of two downloads, each contributing one valid
row with the same `patient_id` and `event_type`, the aggregated result has
`patients.<id>.<type> == 2` and `totals.<type> == 2` — counts accumulate
across the downloads, processed one at a time in list order. -/
theorem two_downloads_accumulate (h1 h2 l1 l2 : Str) (r1 r2 : EventRecord)
    (e1 : parseRow l1 = some r1) (e2 : parseRow l2 = some r2)
    (hp : r2.patient_id = r1.patient_id)
    (ht : r2.event_type = r1.event_type) :
    lookupA ((lookupA (processDownloads [[h1, l1], [h2, l2]]).patient_counts
        r1.patient_id).getD []) r1.event_type = some 2 ∧
    lookupA (processDownloads [[h1, l1], [h2, l2]]).total_counts
        r1.event_type = some 2 := by
  have hstate : processDownloads [[h1, l1], [h2, l2]] =
      applyRecord (applyRecord emptyState r1) r2 := by
    simp [processDownloads, processDownload, processLine, e1, e2]
  rw [hstate]
  unfold applyRecord emptyState
  simp [incrNested, incrCount, lookupA, hp, ht]

/-- Witness for claim C9: two one-row downloads for patient `"P001"` and
event type `"hr"`, with distinct timestamps and values. -/
theorem two_downloads_accumulate_witness :
    lookupA ((lookupA (processDownloads
        [["h".data, "P001,t1,hr,75".data],
         ["h".data, "P001,t2,hr,80".data]]).patient_counts
        "P001".data).getD []) "hr".data = some 2 ∧
    lookupA (processDownloads
        [["h".data, "P001,t1,hr,75".data],
         ["h".data, "P001,t2,hr,80".data]]).total_counts
        "hr".data = some 2 :=
  two_downloads_accumulate "h".data "h".data
    "P001,t1,hr,75".data "P001,t2,hr,80".data
    ⟨"P001".data, "t1".data, "hr".data, "75".data⟩
    ⟨"P001".data, "t2".data, "hr".data, "80".data⟩
    (by decide) (by decide) rfl rfl

/-- Claim C10: every line whose stripped form contains exactly three commas
parses to a record — even when some or all fields are empty strings — and
that record is counted through `applyRecord` exactly like any other, its
(possibly empty) `patient_id` and `event_type` serving as keys. -/
theorem empty_fields_parse_and_count (l : Str) (s : AggState)
    (h : countComma (pyStrip l) = 3) :
    ∃ r, parseRow l = some r ∧ processLine s l = applyRecord s r := by
  have h4 : (splitComma (pyStrip l)).length = 4 := by
    rw [splitComma_length, h]
  obtain ⟨r, hr, _⟩ := parseRow_some_of_strip_length l h4
  exact ⟨r, hr, by simp [processLine, hr]⟩

/-- Witness for claim C10 at the line `",,,"`, whose four fields are all
the empty string. -/
theorem empty_fields_parse_and_count_witness :
    ∃ r, parseRow ",,,".data = some r ∧
      processLine emptyState ",,,".data = applyRecord emptyState r :=
  empty_fields_parse_and_count ",,,".data emptyState (by decide)

end CHMockExport
